import Mathlib

/-!
# Verification of the RUM SpeedIndex pipeline (src/rum-speedindex.js)

Shallow embedding of the SpeedIndex calculation pipeline over exact rational
arithmetic (`ℚ` in place of JS numbers; JS `undefined` becomes `Option`).
JS truthiness of a numeric value `x` is modelled as `x ≠ 0`; truthiness of a
possibly-undefined value as "defined and nonzero".  The JS object used as a
finite map keyed by stringified numbers is modelled as an association list
with unique keys, new keys appended in insertion order; since keys are unique,
sorting by key below (`List.insertionSort`) produces the same list as the
source's `Array.prototype.sort` with the numeric comparator.
-/

/-- A layout rectangle as returned by `getBoundingClientRect` (source line 58). -/
structure ElemRect where
  top : ℚ
  left : ℚ
  bottom : ℚ
  right : ℚ
deriving DecidableEq, Repr

/-- The viewport-clipped `intersect` object built at source lines 59-68,
with its `area` field. -/
structure IntersectRect where
  top : ℚ
  left : ℚ
  bottom : ℚ
  right : ℚ
  area : ℚ
deriving DecidableEq, Repr

/-- An entry of the `rects` accumulator pushed by `CheckElement`
(source lines 78-80): `{url, area, rect}`. -/
structure PaintRegion where
  url : String
  area : ℚ
  rect : IntersectRect
deriving DecidableEq, Repr

/-- A `rects` entry after `GetRectTimings` added the `tm` field
(source line 116).  The `rect` field is never read after that point and is
dropped here. -/
structure TimedRect where
  url : String
  area : ℚ
  tm : ℚ
deriving DecidableEq, Repr

/-- One Resource Timing entry (`performance.getEntriesByType("resource")`):
the fields the source reads are `name`, `responseEnd` and `initiatorType`. -/
structure ResourceEntry where
  name : String
  responseEnd : ℚ
  initiatorType : String
deriving DecidableEq, Repr

/-- A child element of `<head>` as read at source lines 140-146: tag name,
`src`, the `async` flag, `rel`, `href`.  Absent string attributes are `""`
(falsy). -/
structure HeadElement where
  tagName : String
  src : String
  isAsync : Bool
  rel : String
  href : String
deriving DecidableEq, Repr

/-- The `chrome.loadTimes()` bundle read at source lines 125-131.
Fields may be `undefined` (`none`); raw clock values, not relativized. -/
structure ChromeLoadTimes where
  firstPaintTime : Option ℚ
  startLoadTime : Option ℚ
  requestTime : Option ℚ
deriving DecidableEq, Repr

/-- One entry of the visual `progress` array (source lines 190-196):
bucket time `tm`, bucket `area`, cumulative `progress`. -/
structure ProgressPoint where
  tm : ℚ
  area : ℚ
  progress : ℚ
deriving DecidableEq, Repr

/-- The browser telemetry snapshot the pipeline reads (all external inputs of
`RUMSpeedIndex`): navigation start, the optional native `msFirstPaint` signal,
the optional `chrome.loadTimes()` bundle, `responseStart`, the `<head>` child
list, the Resource Timing entries, and the document/window dimensions used by
`CalculateVisualProgress` (`clientWidth`, `innerWidth`, `clientHeight`,
`innerHeight`, with `innerWidth || 0` already resolved to a number). -/
structure Snapshot where
  navStart : ℚ
  msFirstPaint : Option ℚ
  chrome : Option ChromeLoadTimes
  responseStart : ℚ
  headElements : List HeadElement
  resources : List ResourceEntry
  clientWidth : ℚ
  innerWidth : ℚ
  clientHeight : ℚ
  innerHeight : ℚ
deriving DecidableEq, Repr

/-- JS truthiness of a possibly-undefined number: defined and nonzero. -/
def truthy : Option ℚ → Bool
  | some v => v != 0
  | none => false

/-! ## RegionCollector: GetElementViewportRect and CheckElement -/

/-- Source lines 55-71: clip the element rect to
`[0, viewportWidth] × [0, viewportHeight]`; return `false` (here `none`) when
the clipped rect has zero or negative height or width, else the clipped rect
with its area.  `viewH`/`viewW` are the already-resolved
`window.innerHeight || document.documentElement.clientHeight` (resp. width). -/
def GetElementViewportRect (el : ElemRect) (viewH viewW : ℚ) : Option IntersectRect :=
  let t := max el.top 0
  let l := max el.left 0
  let b := min el.bottom viewH
  let r := min el.right viewW
  if b ≤ t ∨ r ≤ l then none
  else some ⟨t, l, b, r, (b - t) * (r - l)⟩

/-- Source lines 74-83: if the URL is truthy and the element has a visible
viewport rect, push `{url, area, rect}` onto `rects`. -/
def CheckElement (rects : List PaintRegion) (el : ElemRect) (viewH viewW : ℚ)
    (url : String) : List PaintRegion :=
  if url ≠ "" then
    match GetElementViewportRect el viewH viewW with
    | some ir => rects ++ [⟨url, ir.area, ir⟩]
    | none => rects
  else rects

/-! ## TimingResolver: GetRectTimings -/

/-- The `timings` lookup of source lines 110-114: the JS object maps each
resource `name` to its `responseEnd`, later entries overwriting earlier ones
with the same name; `none` when no entry has exactly this name. -/
def lookupTiming (reqs : List ResourceEntry) (url : String) : Option ℚ :=
  reqs.foldl (fun acc r => if r.name = url then some r.responseEnd else acc) none

/-- Source lines 109-117: set each rect's `tm` to the matching resource's
`responseEnd`, or `0` when the lookup is `undefined`. -/
def GetRectTimings (rects : List PaintRegion) (reqs : List ResourceEntry) :
    List TimedRect :=
  rects.map (fun g => ⟨g.url, g.area, (lookupTiming reqs g.url).getD 0⟩)

/-! ## FirstPaintEstimator: GetFirstPaint -/

/-- The `startTime` reference of source lines 127-129: start from
`startLoadTime`, then overwrite with `requestTime` whenever `requestTime` is
truthy. -/
def chromeStartTime (ct : ChromeLoadTimes) : Option ℚ :=
  if truthy ct.requestTime then ct.requestTime else ct.startLoadTime

/-- The `chrome.loadTimes()` branch of source lines 124-133, acting on the
current value of `firstPaint` (`fp0`): when `firstPaintTime` is defined and
positive and at least the reference point, overwrite `firstPaint` with
`(firstPaintTime - startTime) * 1000`; a comparison against an `undefined`
reference is false in JS, leaving `firstPaint` unchanged. -/
def chromeFirstPaint (fp0 : Option ℚ) (ct : ChromeLoadTimes) : Option ℚ :=
  match ct.firstPaintTime with
  | some v =>
    if 0 < v then
      match chromeStartTime ct with
      | some st => if st ≤ v then some ((v - st) * 1000) else fp0
      | none => fp0
    else fp0
  | none => fp0

/-- The `headURLs` set of source lines 138-146: URLs of non-async scripts
with a truthy `src` and of stylesheet links with a truthy `href`, in document
order (only membership is ever used). -/
def headCriticalURLs (els : List HeadElement) : List String :=
  els.foldl (fun acc el =>
    let acc1 := if el.tagName = "SCRIPT" ∧ el.src ≠ "" ∧ el.isAsync = false then
      acc ++ [el.src] else acc
    if el.tagName = "LINK" ∧ el.rel = "stylesheet" ∧ el.href ≠ "" then
      acc1 ++ [el.href] else acc1) []

/-- One iteration of the critical-resource scan of source lines 149-159;
state is `(doneCritical, firstPaint)`.  While `doneCritical` is unset and the
record's URL is in the critical set with a script-or-link initiator, advance
`firstPaint` to the record's `responseEnd` when later; otherwise set
`doneCritical` (the scan ignores every later record). -/
def criticalStep (headURLs : List String) (st : Bool × ℚ) (r : ResourceEntry) :
    Bool × ℚ :=
  if st.1 = false ∧ headURLs.contains r.name ∧
      (r.initiatorType = "script" ∨ r.initiatorType = "link") then
    (st.1, if st.2 < r.responseEnd then r.responseEnd else st.2)
  else (true, st.2)

/-- Source lines 120-161 (`GetFirstPaint`): the native `msFirstPaint` branch,
then the `chrome.loadTimes()` branch (which can overwrite the native value),
then — only when `firstPaint` is still `undefined` — the head-critical-resource
fallback seeded with `responseStart - navStart`.  The fallback always produces
a value, so the result is a plain `ℚ`. -/
def GetFirstPaint (s : Snapshot) : ℚ :=
  let fp0 : Option ℚ :=
    if truthy s.msFirstPaint then some (s.msFirstPaint.getD 0 - s.navStart) else none
  let fp1 : Option ℚ :=
    match s.chrome with
    | some ct => chromeFirstPaint fp0 ct
    | none => fp0
  match fp1 with
  | some v => v
  | none =>
    let base := s.responseStart - s.navStart
    (s.resources.foldl (criticalStep (headCriticalURLs s.headElements)) (false, base)).2

/-! ## VisualProgressBuilder: CalculateVisualProgress -/

/-- `paints[tm] += area` on the JS object of source lines 172-174: update the
entry with this key, or append a new key at the end.  Keys are unique by
construction. -/
def addPaint : List (ℚ × ℚ) → ℚ → ℚ → List (ℚ × ℚ)
  | [], tm, area => [(tm, area)]
  | p :: rest, tm, area =>
    if p.1 = tm then (p.1, p.2 + area) :: rest else p :: addPaint rest tm area

/-- The effective bucket time of a rect (source lines 169-171): `firstPaint`,
unless the rect's `tm` is truthy and later than `firstPaint`. -/
def effectiveTime (firstPaint : ℚ) (r : TimedRect) : ℚ :=
  if r.tm ≠ 0 ∧ firstPaint < r.tm then r.tm else firstPaint

/-- One iteration of the region-bucketing loop of source lines 168-176:
add the rect's area to the bucket at its effective time and to `total`. -/
def bucketStep (firstPaint : ℚ) (acc : List (ℚ × ℚ) × ℚ) (r : TimedRect) :
    List (ℚ × ℚ) × ℚ :=
  (addPaint acc.1 (effectiveTime firstPaint r) r.area, acc.2 + r.area)

/-- The region-bucketing loop of source lines 166-176: starting from the
initial `paints = {'0': 0}` and `total = 0`, add each rect's area to the
bucket at its effective time and to `total`. -/
def bucketRects (firstPaint : ℚ) (rects : List TimedRect) : List (ℚ × ℚ) × ℚ :=
  rects.foldl (bucketStep firstPaint) ([(0, 0)], 0)

/-- The fixed `pageBackgroundWeight` constant (source line 226). -/
def pageBackgroundWeight : ℚ := 1 / 10

/-- The page-background bucket of source lines 179-187: when the viewport
pixel count `max(clientWidth, innerWidth) * max(clientHeight, innerHeight)`
is positive, add 10% of the uncovered pixels to the bucket at `firstPaint`
and to `total`. -/
def addBackground (clientW innerW clientH innerH firstPaint : ℚ)
    (pt : List (ℚ × ℚ) × ℚ) : List (ℚ × ℚ) × ℚ :=
  let pixels := max clientW innerW * max clientH innerH
  if 0 < pixels then
    let px := max (pixels - pt.2) 0 * pageBackgroundWeight
    (addPaint pt.1 firstPaint px, pt.2 + px)
  else pt

/-- The complete `paints` object and `total` of source lines 166-187. -/
def visualPaints (rects : List TimedRect) (firstPaint clientW innerW clientH innerH : ℚ) :
    List (ℚ × ℚ) × ℚ :=
  addBackground clientW innerW clientH innerH firstPaint (bucketRects firstPaint rects)

/-- The cumulative-progress pass of source lines 193-197 over the sorted
bucket list: `accumulated += area; progress = accumulated / total`. -/
def cumulProgress (total : ℚ) : List (ℚ × ℚ) → ℚ → List ProgressPoint
  | [], _ => []
  | p :: rest, acc => ⟨p.1, p.2, (acc + p.2) / total⟩ :: cumulProgress total rest (acc + p.2)

/-- Source lines 165-199 (`CalculateVisualProgress`): bucket the rects, add
the background bucket, and — when `total` is truthy — sort the buckets by
time and compute cumulative progress; when `total` is `0` the progress list
stays empty. -/
def CalculateVisualProgress (rects : List TimedRect)
    (firstPaint clientW innerW clientH innerH : ℚ) : List ProgressPoint :=
  let pt := visualPaints rects firstPaint clientW innerW clientH innerH
  if pt.2 ≠ 0 then
    cumulProgress pt.2 (List.insertionSort (fun a b => a.1 ≤ b.1) pt.1) 0
  else []

/-- Modelled from claim C10's words: the same visual-progress bucketing but
with the synthetic initial `{'0': 0}` bucket removed — the bucket map starts
empty.  Used only to compare against `CalculateVisualProgress`. -/
def bucketRectsNoInit (firstPaint : ℚ) (rects : List TimedRect) : List (ℚ × ℚ) × ℚ :=
  rects.foldl (bucketStep firstPaint) ([], 0)

/-- The `paints`/`total` pair of the no-initial-bucket variant. -/
def visualPaintsNoInit (rects : List TimedRect)
    (firstPaint clientW innerW clientH innerH : ℚ) : List (ℚ × ℚ) × ℚ :=
  addBackground clientW innerW clientH innerH firstPaint (bucketRectsNoInit firstPaint rects)

/-- The visual-progress curve of the no-initial-bucket variant. -/
def CalculateVisualProgressNoInit (rects : List TimedRect)
    (firstPaint clientW innerW clientH innerH : ℚ) : List ProgressPoint :=
  let pt := visualPaintsNoInit rects firstPaint clientW innerW clientH innerH
  if pt.2 ≠ 0 then
    cumulProgress pt.2 (List.insertionSort (fun a b => a.1 ≤ b.1) pt.1) 0
  else []

/-! ## SpeedIndexIntegrator: CalculateSpeedIndex -/

/-- One iteration of the integration loop of source lines 207-213; state is
`(lastTime, lastProgress, SpeedIndex)`. -/
def siStep (st : ℚ × ℚ × ℚ) (p : ProgressPoint) : ℚ × ℚ × ℚ :=
  let elapsed := p.tm - st.1
  (p.tm, p.progress,
    if 0 < elapsed ∧ st.2.1 < 1 then st.2.2 + (1 - st.2.1) * elapsed else st.2.2)

/-- Source lines 202-217 (`CalculateSpeedIndex`): integrate the progress
curve from `(lastTime, lastProgress) = (0, 0)`, or fall back to `firstPaint`
when the curve is empty. -/
def CalculateSpeedIndex (progress : List ProgressPoint) (firstPaint : ℚ) : ℚ :=
  if progress ≠ [] then (progress.foldl siStep (0, 0, 0)).2.2 else firstPaint

/-! ## Main flow -/

/-- Source lines 222-248: the whole pipeline on a collected region list and a
telemetry snapshot.  `SpeedIndex` starts `undefined` and is assigned by
`CalculateSpeedIndex`; on total snapshot data no exception is possible, so
the result is always `some` value — `none` models the `undefined` that the
`try/catch` leaves only when a read of a missing browser API throws. -/
def RUMSpeedIndex (regions : List PaintRegion) (s : Snapshot) : Option ℚ :=
  let rects := GetRectTimings regions s.resources
  let firstPaint := GetFirstPaint s
  let progress := CalculateVisualProgress rects firstPaint
    s.clientWidth s.innerWidth s.clientHeight s.innerHeight
  some (CalculateSpeedIndex progress firstPaint)

/-! ## The vendor acceptance check -/

/-- The acceptance condition of the `chrome.loadTimes()` branch (source lines
126-130): `firstPaintTime` is defined and positive and at least the chosen
reference point. -/
def vendorAccepted (ct : ChromeLoadTimes) : Prop :=
  ∃ v st, ct.firstPaintTime = some v ∧ 0 < v ∧ chromeStartTime ct = some st ∧ st ≤ v

/-- When the vendor signal fails the acceptance check the chrome branch
leaves `firstPaint` unchanged. -/
theorem chromeFirstPaint_of_not_accepted (fp0 : Option ℚ) (ct : ChromeLoadTimes)
    (h : ¬ vendorAccepted ct) : chromeFirstPaint fp0 ct = fp0 := by
  unfold chromeFirstPaint
  cases hv : ct.firstPaintTime with
  | none => rfl
  | some v =>
    simp only
    split_ifs with hpos
    · cases hst : chromeStartTime ct with
      | none => rfl
      | some st =>
        simp only
        split_ifs with hle
        · exact absurd ⟨v, st, hv, hpos, hst, hle⟩ h
        · rfl
    · rfl

/-! ## Claim C1 -/

/-- C1 counterexample: at the concrete snapshot with no native first-paint
signal, no vendor bundle, empty head and empty resource list (and
`responseStart = 500`, `navStart = 0`), the pipeline result is `some 500` —
a defined number — whereas the claim asserts it is the unavailable
indicator `none`. -/
theorem C1_unavailable_counterexample :
    RUMSpeedIndex [] ⟨0, none, none, 500, [], [], 0, 0, 0, 0⟩ = some 500 ∧
    (some (500 : ℚ) ≠ none ∧ some (500 : ℚ) ≠ some 0) := by
  refine ⟨?_, by simp, by simp⟩
  norm_num [RUMSpeedIndex, GetFirstPaint, truthy, GetRectTimings, CalculateVisualProgress,
    visualPaints, bucketRects, addBackground, CalculateSpeedIndex]

/-- C1 amended: when no native first-paint signal is truthy, no vendor signal
passes the acceptance check, and the head element list and resource list are
empty, `GetFirstPaint` still resolves — to `responseStart - navStart` — and
the pipeline result is that of the normal integration path: a defined value
(`some _`), never the unavailable indicator `none`. -/
theorem C1_fallback_result_defined (regions : List PaintRegion) (s : Snapshot)
    (hms : truthy s.msFirstPaint = false)
    (hch : ∀ ct, s.chrome = some ct → ¬ vendorAccepted ct)
    (hhead : s.headElements = []) (hres : s.resources = []) :
    GetFirstPaint s = s.responseStart - s.navStart ∧
    RUMSpeedIndex regions s ≠ none := by
  have hfp : GetFirstPaint s = s.responseStart - s.navStart := by
    unfold GetFirstPaint
    rw [hms, hres]
    cases hc : s.chrome with
    | none => simp
    | some ct => simp [chromeFirstPaint_of_not_accepted _ _ (hch ct hc)]
  exact ⟨hfp, by simp [RUMSpeedIndex]⟩

/-- Witness for C1's amended theorem at a concrete snapshot. -/
theorem C1_fallback_result_defined_witness :
    GetFirstPaint ⟨3, none, none, 500, [], [], 2, 2, 2, 2⟩ = 500 - 3 ∧
    RUMSpeedIndex [] ⟨3, none, none, 500, [], [], 2, 2, 2, 2⟩ ≠ none :=
  C1_fallback_result_defined [] ⟨3, none, none, 500, [], [], 2, 2, 2, 2⟩
    (by decide) (by simp) rfl rfl

/-! ## Claim C3 -/

/-- C3 counterexample: at the concrete snapshot the native signal is present
(`msFirstPaint = 100`, relativized value `100 - 0`), a vendor signal is also
present and passes the acceptance check, and the result is the vendor value
`1000`, not the native value — the chrome branch runs after the native branch
and overwrites it, so "first satisfied wins" fails in the stated order. -/
theorem C3_native_overridden_counterexample :
    truthy (some (100 : ℚ)) = true ∧
    vendorAccepted ⟨some 2, some 1, some 1⟩ ∧
    GetFirstPaint ⟨0, some 100, some ⟨some 2, some 1, some 1⟩, 0, [], [], 0, 0, 0, 0⟩ = 1000 ∧
    (1000 : ℚ) ≠ 100 - 0 := by
  refine ⟨by decide, ⟨2, 1, rfl, by norm_num, by decide, by norm_num⟩, ?_, by norm_num⟩
  norm_num [GetFirstPaint, truthy, chromeFirstPaint, chromeStartTime]

/-- C3 amended: the native first-paint signal wins only when no vendor signal
passes the acceptance check; in that case the estimator's result is the native
signal relativized to navigation start. -/
theorem C3_native_wins_without_vendor (s : Snapshot)
    (hms : truthy s.msFirstPaint = true)
    (hch : ∀ ct, s.chrome = some ct → ¬ vendorAccepted ct) :
    GetFirstPaint s = s.msFirstPaint.getD 0 - s.navStart := by
  unfold GetFirstPaint
  rw [hms]
  cases hc : s.chrome with
  | none => simp
  | some ct => simp [chromeFirstPaint_of_not_accepted _ _ (hch ct hc)]

/-- Witness for C3's amended theorem: native signal 100, vendor bundle
present but rejected (its `firstPaintTime` is below the reference point). -/
theorem C3_native_wins_without_vendor_witness :
    GetFirstPaint ⟨7, some 100, some ⟨some 2, some 5, some 5⟩, 0, [], [], 0, 0, 0, 0⟩ =
      (some (100 : ℚ)).getD 0 - 7 := by
  refine C3_native_wins_without_vendor _ (by decide) ?_
  rintro ct hct ⟨v, st, hv, hpos, hst, hle⟩
  cases Option.some.injEq .. ▸ hct
  simp [chromeStartTime, truthy] at hst hv
  subst hst hv
  exact absurd hle (by decide)

/-! ## Claim C4 -/

/-- C4 counterexample: `startLoadTime = 10` is available, yet with
`requestTime = 5` truthy and `firstPaintTime = 20` the code subtracts
`requestTime`, producing `(20 - 5) * 1000 = 15000` rather than the claimed
`(20 - 10) * 1000 = 10000` — `requestTime`, not `startLoadTime`, is the
preferred reference. -/
theorem C4_reference_counterexample :
    GetFirstPaint ⟨0, none, some ⟨some 20, some 10, some 5⟩, 0, [], [], 0, 0, 0, 0⟩ = 15000 ∧
    (15000 : ℚ) ≠ (20 - 10) * 1000 := by
  constructor
  · norm_num [GetFirstPaint, truthy, chromeFirstPaint, chromeStartTime]
  · norm_num

/-- C4 amended: in the vendor branch the reference point subtracted from the
vendor `firstPaintTime` is `requestTime` whenever `requestTime` is truthy
(defined and nonzero); `startLoadTime` serves as the reference only when
`requestTime` is falsy. -/
theorem C4_request_time_reference (ct : ChromeLoadTimes) (fp0 : Option ℚ) (v : ℚ)
    (hfp : ct.firstPaintTime = some v) (hv : 0 < v) :
    (∀ rt, ct.requestTime = some rt → rt ≠ 0 →
      chromeStartTime ct = some rt ∧
      (rt ≤ v → chromeFirstPaint fp0 ct = some ((v - rt) * 1000))) ∧
    (truthy ct.requestTime = false →
      chromeStartTime ct = ct.startLoadTime ∧
      (∀ st, ct.startLoadTime = some st → st ≤ v →
        chromeFirstPaint fp0 ct = some ((v - st) * 1000))) := by
  constructor
  · intro rt hrt hrt0
    have hst : chromeStartTime ct = some rt := by
      simp [chromeStartTime, truthy, hrt, hrt0]
    refine ⟨hst, fun hle => ?_⟩
    simp [chromeFirstPaint, hfp, hv, hst, hle]
  · intro hfalse
    have hst : chromeStartTime ct = ct.startLoadTime := by
      simp [chromeStartTime, hfalse]
    refine ⟨hst, fun st hsl hle => ?_⟩
    simp [chromeFirstPaint, hfp, hv, hst, hsl, hle]

/-- Witness for C4's amended theorem at the counterexample's bundle: with
`requestTime = 5` truthy, the reference is `5` and the branch yields
`(20 - 5) * 1000`. -/
theorem C4_request_time_reference_witness :
    chromeStartTime ⟨some 20, some 10, some 5⟩ = some 5 ∧
    chromeFirstPaint none ⟨some 20, some 10, some 5⟩ = some ((20 - 5) * 1000) := by
  have h := (C4_request_time_reference ⟨some 20, some 10, some 5⟩ none 20 rfl
    (by decide)).1 5 rfl (by decide)
  exact ⟨h.1, h.2 (by decide)⟩

/-! ## Claim C5 -/

/-- C5: with head elements [synchronous script A, stylesheet link B,
asynchronous script C] and resource records [A at 120 (script initiated),
B at 150 (link initiated), C (any completion time, any initiator)], no native
or vendor signal, and `responseStart - navStart` at most 120, the fallback
advances over A and B and yields `firstPaint = 150`; the C record — excluded
from the critical set by its `async` flag — never influences the result. -/
theorem C5_critical_chain_result (ns rs cEnd : ℚ) (cInit : String)
    (h : rs - ns ≤ 120) :
    GetFirstPaint ⟨ns, none, none, rs,
      [⟨"SCRIPT", "A", false, "", ""⟩, ⟨"LINK", "", false, "stylesheet", "B"⟩,
       ⟨"SCRIPT", "C", true, "", ""⟩],
      [⟨"A", 120, "script"⟩, ⟨"B", 150, "link"⟩, ⟨"C", cEnd, cInit⟩],
      0, 0, 0, 0⟩ = 150 := by
  simp only [GetFirstPaint, truthy, headCriticalURLs, criticalStep]
  norm_num
  norm_num +decide [criticalStep]
  intro h2
  split_ifs at h2 ⊢ <;> linarith

/-- Witness for C5 with `responseStart - navStart = 120` exactly and
`C` completing at 90 as a script. -/
theorem C5_critical_chain_result_witness :
    GetFirstPaint ⟨0, none, none, 120,
      [⟨"SCRIPT", "A", false, "", ""⟩, ⟨"LINK", "", false, "stylesheet", "B"⟩,
       ⟨"SCRIPT", "C", true, "", ""⟩],
      [⟨"A", 120, "script"⟩, ⟨"B", 150, "link"⟩, ⟨"C", 90, "script"⟩],
      0, 0, 0, 0⟩ = 150 :=
  C5_critical_chain_result 0 120 90 "script" (by simp)

/-! ## Claim C6 -/

/-- C6: with `firstPaint = 100`, one region of area 50 with `tm = 100`, one
region of area 50 with `tm = 300`, and the viewport fully covered
(`max(clientW, innerW) * max(clientH, innerH) = 100 =` total region area, so
the background bucket adds zero area), the progress curve carries value `1/2`
at time 100 and `1` at time 300, and the SpeedIndex is
`(100 - 0) * (1 - 0) + (300 - 100) * (1 - 1/2) = 200`. -/
theorem C6_two_bucket_integral :
    CalculateVisualProgress [⟨"a", 50, 100⟩, ⟨"b", 50, 300⟩] 100 10 10 10 10 =
      [⟨0, 0, 0⟩, ⟨100, 50, 1/2⟩, ⟨300, 50, 1⟩] ∧
    CalculateSpeedIndex
      (CalculateVisualProgress [⟨"a", 50, 100⟩, ⟨"b", 50, 300⟩] 100 10 10 10 10) 100 = 200 := by
  have hcurve : CalculateVisualProgress [⟨"a", 50, 100⟩, ⟨"b", 50, 300⟩] 100 10 10 10 10 =
      [⟨0, 0, 0⟩, ⟨100, 50, 1/2⟩, ⟨300, 50, 1⟩] := by
    norm_num [CalculateVisualProgress, visualPaints, bucketRects, bucketStep, addBackground,
      effectiveTime, addPaint, pageBackgroundWeight, cumulProgress, List.insertionSort,
      List.orderedInsert]
  refine ⟨hcurve, ?_⟩
  rw [hcurve]
  have hne : ([⟨0, 0, 0⟩, ⟨100, 50, 1/2⟩, ⟨300, 50, 1⟩] : List ProgressPoint) ≠ [] := by simp
  unfold CalculateSpeedIndex
  rw [if_pos hne]
  norm_num [siStep]

/-! ## Claim C7 -/

/-- C7 counterexample: with zero regions but a positive viewport pixel count
(`clientWidth = 1000`, `clientHeight = 1`) and `firstPaint = 50`, the
background bucket makes the progress curve non-empty — the claim's
"zero qualifying regions implies an empty ProgressPoint sequence" fails. -/
theorem C7_empty_curve_counterexample :
    CalculateVisualProgress [] 50 1000 0 1 0 = [⟨0, 0, 0⟩, ⟨50, 100, 1⟩] ∧
    ([⟨0, 0, 0⟩, ⟨50, 100, 1⟩] : List ProgressPoint) ≠ [] := by
  constructor
  · norm_num [CalculateVisualProgress, visualPaints, bucketRects, bucketStep, addBackground,
      addPaint, pageBackgroundWeight, cumulProgress, List.insertionSort, List.orderedInsert]
  · simp

/-- C7 amended: with zero qualifying regions AND a non-positive viewport pixel
count the progress curve is empty and the SpeedIndex equals the firstPaint
estimate; and (for any input) whenever the bucketed total is `0` the curve is
empty and the SpeedIndex falls back to the firstPaint estimate. -/
theorem C7_degenerate_no_regions (rects : List TimedRect) (fp cw iw ch ih : ℚ) :
    (rects = [] → max cw iw * max ch ih ≤ 0 →
      CalculateVisualProgress rects fp cw iw ch ih = [] ∧
      CalculateSpeedIndex (CalculateVisualProgress rects fp cw iw ch ih) fp = fp) ∧
    ((visualPaints rects fp cw iw ch ih).2 = 0 →
      CalculateVisualProgress rects fp cw iw ch ih = [] ∧
      CalculateSpeedIndex (CalculateVisualProgress rects fp cw iw ch ih) fp = fp) := by
  have hempty : ∀ h : (visualPaints rects fp cw iw ch ih).2 = 0,
      CalculateVisualProgress rects fp cw iw ch ih = [] := by
    intro h
    simp [CalculateVisualProgress, h]
  constructor
  · intro hr hpix
    subst hr
    have htot : (visualPaints ([] : List TimedRect) fp cw iw ch ih).2 = 0 := by
      simp [visualPaints, bucketRects, addBackground, not_lt.mpr hpix]
    exact ⟨hempty htot, by simp [hempty htot, CalculateSpeedIndex]⟩
  · intro htot
    exact ⟨hempty htot, by simp [hempty htot, CalculateSpeedIndex]⟩

/-- Witness for C7's amended theorem: no regions and a zero-sized viewport. -/
theorem C7_degenerate_no_regions_witness :
    CalculateVisualProgress [] 7 0 0 0 0 = [] ∧
    CalculateSpeedIndex (CalculateVisualProgress [] 7 0 0 0 0) 7 = 7 :=
  (C7_degenerate_no_regions [] 7 0 0 0 0).1 rfl (by simp)

/-! ## Claim C8 -/

/-- C8: `GetRectTimings` assigns each rect the timing resolved by exact URL
lookup, and for every resource list and URL the resolved value is either the
`responseEnd` of a record whose `name` is exactly the URL, or `0` when no
record's `name` equals the URL exactly — so a record whose URL is merely a
prefix or partial match of a region's URL never contributes. -/
theorem C8_exact_url_match (rects : List PaintRegion) (reqs : List ResourceEntry)
    (url : String) :
    GetRectTimings rects reqs =
      rects.map (fun g => ⟨g.url, g.area, (lookupTiming reqs g.url).getD 0⟩) ∧
    ((∃ r ∈ reqs, r.name = url ∧ (lookupTiming reqs url).getD 0 = r.responseEnd) ∨
     ((∀ r ∈ reqs, r.name ≠ url) ∧ (lookupTiming reqs url).getD 0 = 0)) := by
  refine ⟨rfl, ?_⟩
  induction reqs using List.reverseRecOn with
  | nil => exact Or.inr ⟨by simp, by simp [lookupTiming]⟩
  | append_singleton l r ih =>
    have hl : lookupTiming (l ++ [r]) url =
        if r.name = url then some r.responseEnd else lookupTiming l url := by
      simp [lookupTiming, List.foldl_append]
    by_cases hr : r.name = url
    · exact Or.inl ⟨r, by simp, hr, by simp [hl, hr]⟩
    · rcases ih with ⟨rr, hmem, hname, hval⟩ | ⟨hall, hval⟩
      · exact Or.inl ⟨rr, List.mem_append_left _ hmem, hname, by
          rw [hl, if_neg hr]; exact hval⟩
      · refine Or.inr ⟨?_, by rw [hl, if_neg hr]; exact hval⟩
        intro r' hr'
        rcases List.mem_append.mp hr' with h' | h'
        · exact hall r' h'
        · rw [List.mem_singleton.mp h']; exact hr

/-! ## Claim C9 -/

/-- C9: every rect returned by `GetElementViewportRect` has positive area and
is fully contained in `[0, viewportWidth] × [0, viewportHeight]`; when the
clipped rectangle has zero or negative width or height the element is
discarded (`none`); and every region `CheckElement` appends satisfies the
same invariant. -/
theorem C9_region_viewport_invariant (el : ElemRect) (viewH viewW : ℚ) :
    (∀ ir, GetElementViewportRect el viewH viewW = some ir →
      0 < ir.area ∧ 0 ≤ ir.top ∧ 0 ≤ ir.left ∧ ir.bottom ≤ viewH ∧ ir.right ≤ viewW ∧
      ir.top < ir.bottom ∧ ir.left < ir.right) ∧
    ((min el.bottom viewH ≤ max el.top 0 ∨ min el.right viewW ≤ max el.left 0) →
      GetElementViewportRect el viewH viewW = none) ∧
    (∀ rects url reg, reg ∈ CheckElement rects el viewH viewW url →
      reg ∈ rects ∨ (0 < reg.area ∧ 0 ≤ reg.rect.top ∧ 0 ≤ reg.rect.left ∧
        reg.rect.bottom ≤ viewH ∧ reg.rect.right ≤ viewW ∧
        reg.rect.top < reg.rect.bottom ∧ reg.rect.left < reg.rect.right)) := by
  have part1 : ∀ ir, GetElementViewportRect el viewH viewW = some ir →
      0 < ir.area ∧ 0 ≤ ir.top ∧ 0 ≤ ir.left ∧ ir.bottom ≤ viewH ∧ ir.right ≤ viewW ∧
      ir.top < ir.bottom ∧ ir.left < ir.right := by
    intro ir h
    simp only [GetElementViewportRect] at h
    split_ifs at h with hcond
    push_neg at hcond
    obtain ⟨hbt, hrl⟩ := hcond
    injection h with h2
    subst h2
    refine ⟨mul_pos (by linarith) (by linarith), le_max_right _ _, le_max_right _ _,
      min_le_right _ _, min_le_right _ _, hbt, hrl⟩
  refine ⟨part1, ?_, ?_⟩
  · intro h
    unfold GetElementViewportRect
    exact if_pos h
  · intro rects url reg hm
    unfold CheckElement at hm
    split_ifs at hm with hurl
    · cases hir : GetElementViewportRect el viewH viewW with
      | none => rw [hir] at hm; exact Or.inl hm
      | some ir =>
        rw [hir] at hm
        rcases List.mem_append.mp hm with h' | h'
        · exact Or.inl h'
        · rw [List.mem_singleton.mp h']
          obtain ⟨ha, h1, h2, h3, h4, h5, h6⟩ := part1 ir hir
          exact Or.inr ⟨ha, h1, h2, h3, h4, h5, h6⟩
    · exact Or.inl hm

/-- Witness for C9 applying the `CheckElement` part at a falsy URL: the
pre-existing region is returned unchanged, so it is a member of the input
list. -/
theorem C9_region_viewport_invariant_witness :
    (⟨"u", 4, ⟨0, 0, 2, 2, 4⟩⟩ : PaintRegion) ∈
      ([⟨"u", 4, ⟨0, 0, 2, 2, 4⟩⟩] : List PaintRegion) ∨
    (0 < (4 : ℚ) ∧ 0 ≤ (0 : ℚ) ∧ 0 ≤ (0 : ℚ) ∧ (2 : ℚ) ≤ 10 ∧ (2 : ℚ) ≤ 10 ∧
      (0 : ℚ) < 2 ∧ (0 : ℚ) < 2) :=
  (C9_region_viewport_invariant ⟨1, 1, 5, 5⟩ 10 10).2.2
    [⟨"u", 4, ⟨0, 0, 2, 2, 4⟩⟩] "" ⟨"u", 4, ⟨0, 0, 2, 2, 4⟩⟩ (by simp [CheckElement])

/-! ## Bucket-map and progress-curve lemmas -/

theorem addPaint_sum (l : List (ℚ × ℚ)) (tm a : ℚ) :
    ((addPaint l tm a).map Prod.snd).sum = (l.map Prod.snd).sum + a := by
  induction l with
  | nil => simp [addPaint]
  | cons p rest ih =>
    by_cases h : p.1 = tm
    · simp only [addPaint, if_pos h, List.map_cons, List.sum_cons]
      ring
    · simp only [addPaint, if_neg h, List.map_cons, List.sum_cons, ih]
      ring

theorem addPaint_nonneg (l : List (ℚ × ℚ)) (tm a : ℚ)
    (hl : ∀ p ∈ l, 0 ≤ p.2) (ha : 0 ≤ a) : ∀ p ∈ addPaint l tm a, 0 ≤ p.2 := by
  induction l with
  | nil =>
    intro p hp
    simp only [addPaint, List.mem_singleton] at hp
    subst hp
    exact ha
  | cons q rest ih =>
    intro p hp
    by_cases h : q.1 = tm
    · simp only [addPaint, if_pos h, List.mem_cons] at hp
      rcases hp with hp | hp
      · subst hp
        exact add_nonneg (hl q (List.mem_cons_self _ _)) ha
      · exact hl p (List.mem_cons_of_mem _ hp)
    · simp only [addPaint, if_neg h, List.mem_cons] at hp
      rcases hp with hp | hp
      · subst hp
        exact hl p (List.mem_cons_self _ _)
      · exact ih (fun x hx => hl x (List.mem_cons_of_mem _ hx)) p hp

theorem addPaint_keys (l : List (ℚ × ℚ)) (tm a : ℚ) :
    (addPaint l tm a).map Prod.fst = l.map Prod.fst ∨
    (addPaint l tm a).map Prod.fst = l.map Prod.fst ++ [tm] := by
  induction l with
  | nil => right; simp [addPaint]
  | cons q rest ih =>
    by_cases h : q.1 = tm
    · left; simp [addPaint, h]
    · rcases ih with h' | h'
      · left; simp [addPaint, h, h']
      · right; simp [addPaint, h, h']

theorem bucketFold_sum (fp : ℚ) (rects : List TimedRect) :
    ∀ init : List (ℚ × ℚ) × ℚ,
      ((rects.foldl (bucketStep fp) init).1.map Prod.snd).sum -
        (rects.foldl (bucketStep fp) init).2 =
      (init.1.map Prod.snd).sum - init.2 := by
  induction rects with
  | nil => intro init; simp
  | cons r rest ih =>
    intro init
    rw [List.foldl_cons, ih]
    simp only [bucketStep, addPaint_sum]
    ring

theorem bucketFold_nonneg (fp : ℚ) : ∀ (rects : List TimedRect)
    (init : List (ℚ × ℚ) × ℚ), (∀ r ∈ rects, 0 ≤ r.area) → (∀ p ∈ init.1, 0 ≤ p.2) →
    ∀ p ∈ (rects.foldl (bucketStep fp) init).1, 0 ≤ p.2
  | [], _, _, hinit => by simpa using hinit
  | r :: rest, init, hr, hinit => by
    rw [List.foldl_cons]
    exact bucketFold_nonneg fp rest _ (fun x hx => hr x (List.mem_cons_of_mem _ hx))
      (addPaint_nonneg _ _ _ hinit (hr r (List.mem_cons_self _ _)))

theorem bucketFold_zero_key (fp : ℚ) : ∀ (rects : List TimedRect)
    (init : List (ℚ × ℚ) × ℚ), (0 : ℚ) ∈ init.1.map Prod.fst →
    (0 : ℚ) ∈ (rects.foldl (bucketStep fp) init).1.map Prod.fst
  | [], _, h => by simpa using h
  | r :: rest, init, h => by
    rw [List.foldl_cons]
    apply bucketFold_zero_key fp rest
    rcases addPaint_keys init.1 (effectiveTime fp r) r.area with hk | hk <;>
      simp only [bucketStep, hk]
    · exact h
    · exact List.mem_append_left _ h

theorem addBackground_sum (cw iw ch ihh fp : ℚ) (pt : List (ℚ × ℚ) × ℚ)
    (h : (pt.1.map Prod.snd).sum = pt.2) :
    ((addBackground cw iw ch ihh fp pt).1.map Prod.snd).sum =
      (addBackground cw iw ch ihh fp pt).2 := by
  simp only [addBackground]
  split_ifs with hpix
  · simp only
    rw [addPaint_sum, h]
  · exact h

theorem visualPaints_sum (rects : List TimedRect) (fp cw iw ch ihh : ℚ) :
    ((visualPaints rects fp cw iw ch ihh).1.map Prod.snd).sum =
      (visualPaints rects fp cw iw ch ihh).2 := by
  have hb := bucketFold_sum fp rects ([(0, 0)], 0)
  simp only [List.map_cons, List.map_nil, List.sum_cons, List.sum_nil] at hb
  unfold visualPaints bucketRects
  exact addBackground_sum _ _ _ _ _ _ (by linarith)

theorem visualPaintsNoInit_sum (rects : List TimedRect) (fp cw iw ch ihh : ℚ) :
    ((visualPaintsNoInit rects fp cw iw ch ihh).1.map Prod.snd).sum =
      (visualPaintsNoInit rects fp cw iw ch ihh).2 := by
  have hb := bucketFold_sum fp rects ([], 0)
  simp only [List.map_nil, List.sum_nil] at hb
  unfold visualPaintsNoInit bucketRectsNoInit
  exact addBackground_sum _ _ _ _ _ _ (by linarith)

theorem visualPaints_nonneg (rects : List TimedRect) (fp cw iw ch ihh : ℚ)
    (hr : ∀ r ∈ rects, 0 ≤ r.area) :
    ∀ p ∈ (visualPaints rects fp cw iw ch ihh).1, 0 ≤ p.2 := by
  have hb := bucketFold_nonneg fp rects ([(0, 0)], 0) hr (by simp)
  unfold visualPaints bucketRects
  simp only [addBackground]
  split_ifs with hpix
  · exact addPaint_nonneg _ _ _ hb
      (mul_nonneg (le_max_right _ _) (by norm_num [pageBackgroundWeight]))
  · exact hb

theorem visualPaints_zero_key (rects : List TimedRect) (fp cw iw ch ihh : ℚ) :
    (0 : ℚ) ∈ (visualPaints rects fp cw iw ch ihh).1.map Prod.fst := by
  have hb := bucketFold_zero_key fp rects ([(0, 0)], 0) (by simp)
  unfold visualPaints bucketRects
  simp only [addBackground]
  split_ifs with hpix
  · rcases addPaint_keys (List.foldl (bucketStep fp) ([(0, 0)], 0) rects).1 fp
      (max (max cw iw * max ch ihh - (List.foldl (bucketStep fp) ([(0, 0)], 0) rects).2) 0 *
        pageBackgroundWeight) with hk | hk
    · simp only [hk]
      exact hb
    · simp only [hk]
      exact List.mem_append_left _ hb
  · exact hb

theorem cumulProgress_map_tm (total : ℚ) : ∀ (l : List (ℚ × ℚ)) (acc : ℚ),
    (cumulProgress total l acc).map ProgressPoint.tm = l.map Prod.fst
  | [], _ => rfl
  | p :: rest, acc => by
    simp only [cumulProgress, List.map_cons, cumulProgress_map_tm total rest]

theorem cumulProgress_append (total : ℚ) : ∀ (l₁ l₂ : List (ℚ × ℚ)) (acc : ℚ),
    cumulProgress total (l₁ ++ l₂) acc =
      cumulProgress total l₁ acc ++ cumulProgress total l₂ (acc + (l₁.map Prod.snd).sum)
  | [], l₂, acc => by simp [cumulProgress]
  | p :: rest, l₂, acc => by
    simp only [List.cons_append, cumulProgress, List.map_cons, List.sum_cons,
      List.append_eq]
    rw [cumulProgress_append total rest l₂ (acc + p.2), add_assoc]

theorem cumulProgress_chain (total : ℚ) (htot : 0 < total) :
    ∀ (l : List (ℚ × ℚ)) (acc : ℚ), (∀ p ∈ l, 0 ≤ p.2) →
      List.Chain' (fun a b => a.progress ≤ b.progress) (cumulProgress total l acc)
  | [], _, _ => List.chain'_nil
  | [p], acc, _ => by simp [cumulProgress]
  | p :: q :: rest, acc, h => by
    simp only [cumulProgress]
    rw [List.chain'_cons]
    constructor
    · simp only
      rw [div_le_div_iff_of_pos_right htot]
      have hq : 0 ≤ q.2 := h q (List.mem_cons_of_mem _ (List.mem_cons_self _ _))
      linarith
    · have := cumulProgress_chain total htot (q :: rest) (acc + p.2)
        (fun x hx => h x (List.mem_cons_of_mem _ hx))
      simpa only [cumulProgress] using this

theorem cumulProgress_getLast (total : ℚ) : ∀ (l : List (ℚ × ℚ)) (acc : ℚ), l ≠ [] →
    ∃ pt, (cumulProgress total l acc).getLast? = some pt ∧
      pt.progress = (acc + (l.map Prod.snd).sum) / total
  | [], _, h => absurd rfl h
  | [p], acc, _ => by
    refine ⟨⟨p.1, p.2, (acc + p.2) / total⟩, by simp [cumulProgress], by simp⟩
  | p :: q :: rest, acc, _ => by
    obtain ⟨pt, h1, h2⟩ := cumulProgress_getLast total (q :: rest) (acc + p.2) (by simp)
    refine ⟨pt, ?_, ?_⟩
    · simp only [cumulProgress] at h1 ⊢
      rw [List.getLast?_cons_cons]
      exact h1
    · rw [h2]
      simp only [List.map_cons, List.sum_cons]
      ring_nf

instance : IsTotal (ℚ × ℚ) (fun a b => a.1 ≤ b.1) := ⟨fun a b => le_total a.1 b.1⟩

instance : IsTrans (ℚ × ℚ) (fun a b => a.1 ≤ b.1) := ⟨fun _ _ _ => le_trans⟩

/-! ## Claim C2 -/

/-- C2: for every region list with non-negative areas (the RegionCollector's
invariant), the progress curve is sorted ascending by time, its cumulative
progress values are non-decreasing along the curve, and — whenever the
accumulated total is positive — the final point's cumulative progress equals
`1` exactly (rational arithmetic stands in for floating point, so
"within rounding tolerance" becomes exact equality). -/
theorem C2_progress_monotone (rects : List TimedRect) (fp cw iw ch ihh : ℚ)
    (h : ∀ r ∈ rects, 0 ≤ r.area) :
    List.Pairwise (fun a b => a.tm ≤ b.tm)
      (CalculateVisualProgress rects fp cw iw ch ihh) ∧
    List.Chain' (fun a b => a.progress ≤ b.progress)
      (CalculateVisualProgress rects fp cw iw ch ihh) ∧
    (0 < (visualPaints rects fp cw iw ch ihh).2 →
      ∃ pt, (CalculateVisualProgress rects fp cw iw ch ihh).getLast? = some pt ∧
        pt.progress = 1) := by
  by_cases htot : (visualPaints rects fp cw iw ch ihh).2 = 0
  · have hcurve : CalculateVisualProgress rects fp cw iw ch ihh = [] := by
      simp [CalculateVisualProgress, htot]
    rw [hcurve]
    exact ⟨List.Pairwise.nil, List.chain'_nil, fun hpos => absurd htot (ne_of_gt hpos)⟩
  · have hnn : ∀ p ∈ (visualPaints rects fp cw iw ch ihh).1, 0 ≤ p.2 :=
      visualPaints_nonneg rects fp cw iw ch ihh h
    have hsum := visualPaints_sum rects fp cw iw ch ihh
    have hperm := List.perm_insertionSort (fun a b : ℚ × ℚ => a.1 ≤ b.1)
      (visualPaints rects fp cw iw ch ihh).1
    have hnn' : ∀ p ∈ List.insertionSort (fun a b : ℚ × ℚ => a.1 ≤ b.1)
        (visualPaints rects fp cw iw ch ihh).1, 0 ≤ p.2 :=
      fun p hp => hnn p (hperm.mem_iff.mp hp)
    have hsum' : ((List.insertionSort (fun a b : ℚ × ℚ => a.1 ≤ b.1)
        (visualPaints rects fp cw iw ch ihh).1).map Prod.snd).sum =
        (visualPaints rects fp cw iw ch ihh).2 := by
      rw [(hperm.map Prod.snd).sum_eq, hsum]
    have hpos : 0 < (visualPaints rects fp cw iw ch ihh).2 := by
      have h0 : 0 ≤ ((visualPaints rects fp cw iw ch ihh).1.map Prod.snd).sum :=
        List.sum_nonneg (fun x hx => by
          rcases List.mem_map.mp hx with ⟨p, hp, rfl⟩
          exact hnn p hp)
      rw [hsum] at h0
      exact lt_of_le_of_ne h0 (Ne.symm htot)
    have hcurve : CalculateVisualProgress rects fp cw iw ch ihh =
        cumulProgress (visualPaints rects fp cw iw ch ihh).2
          (List.insertionSort (fun a b : ℚ × ℚ => a.1 ≤ b.1)
            (visualPaints rects fp cw iw ch ihh).1) 0 := by
      simp [CalculateVisualProgress, htot]
    refine ⟨?_, ?_, fun _ => ?_⟩
    · rw [hcurve]
      have hsorted := List.sorted_insertionSort (fun a b : ℚ × ℚ => a.1 ≤ b.1)
        (visualPaints rects fp cw iw ch ihh).1
      have hmap := cumulProgress_map_tm (visualPaints rects fp cw iw ch ihh).2
        (List.insertionSort (fun a b : ℚ × ℚ => a.1 ≤ b.1)
          (visualPaints rects fp cw iw ch ihh).1) 0
      have := List.pairwise_map.mpr hsorted
      rw [← hmap] at this
      exact List.pairwise_map.mp this
    · rw [hcurve]
      exact cumulProgress_chain _ hpos _ 0 hnn'
    · rw [hcurve]
      have hne : List.insertionSort (fun a b : ℚ × ℚ => a.1 ≤ b.1)
          (visualPaints rects fp cw iw ch ihh).1 ≠ [] := by
        intro hnil
        rw [hnil] at hsum'
        simp at hsum'
        exact htot hsum'.symm
      obtain ⟨pt, h1, h2⟩ := cumulProgress_getLast _ _ 0 hne
      refine ⟨pt, h1, ?_⟩
      rw [h2, zero_add, hsum', div_self htot]

/-- Witness for C2 at a concrete region list with non-negative areas. -/
theorem C2_progress_monotone_witness :
    List.Pairwise (fun a b => a.tm ≤ b.tm)
      (CalculateVisualProgress [⟨"a", 50, 100⟩, ⟨"b", 50, 300⟩] 100 10 10 10 10) ∧
    List.Chain' (fun a b => a.progress ≤ b.progress)
      (CalculateVisualProgress [⟨"a", 50, 100⟩, ⟨"b", 50, 300⟩] 100 10 10 10 10) ∧
    (0 < (visualPaints [⟨"a", 50, 100⟩, ⟨"b", 50, 300⟩] 100 10 10 10 10).2 →
      ∃ pt, (CalculateVisualProgress
          [⟨"a", 50, 100⟩, ⟨"b", 50, 300⟩] 100 10 10 10 10).getLast? = some pt ∧
        pt.progress = 1) :=
  C2_progress_monotone [⟨"a", 50, 100⟩, ⟨"b", 50, 300⟩] 100 10 10 10 10 (by decide)

/-! ## Lemmas relating the curve with and without the initial zero bucket -/

theorem effectiveTime_ne_zero (fp : ℚ) (hfp : fp ≠ 0) (r : TimedRect) :
    effectiveTime fp r ≠ 0 := by
  unfold effectiveTime
  split_ifs with h
  · exact h.1
  · exact hfp

theorem addPaint_cons_zero (l : List (ℚ × ℚ)) (z tm a : ℚ) (h : tm ≠ 0) :
    addPaint ((0, z) :: l) tm a = (0, z) :: addPaint l tm a := by
  simp only [addPaint, if_neg (fun hh : (0 : ℚ) = tm => h hh.symm)]

theorem bucketFold_cons_zero (fp : ℚ) (hfp : fp ≠ 0) : ∀ (rects : List TimedRect)
    (l : List (ℚ × ℚ)) (t : ℚ),
    rects.foldl (bucketStep fp) ((0, 0) :: l, t) =
      ((0, 0) :: (rects.foldl (bucketStep fp) (l, t)).1,
        (rects.foldl (bucketStep fp) (l, t)).2)
  | [], _, _ => rfl
  | r :: rest, l, t => by
    rw [List.foldl_cons, List.foldl_cons]
    have h1 : bucketStep fp ((0, 0) :: l, t) r =
        ((0, 0) :: (bucketStep fp (l, t) r).1, (bucketStep fp (l, t) r).2) := by
      simp only [bucketStep]
      rw [addPaint_cons_zero _ _ _ _ (effectiveTime_ne_zero fp hfp r)]
    rw [h1]
    exact bucketFold_cons_zero fp hfp rest _ _

theorem visualPaints_cons_zero (rects : List TimedRect) (fp cw iw ch ihh : ℚ)
    (hfp : fp ≠ 0) :
    (visualPaints rects fp cw iw ch ihh).1 =
      (0, 0) :: (visualPaintsNoInit rects fp cw iw ch ihh).1 ∧
    (visualPaints rects fp cw iw ch ihh).2 =
      (visualPaintsNoInit rects fp cw iw ch ihh).2 := by
  unfold visualPaints visualPaintsNoInit bucketRects bucketRectsNoInit
  rw [bucketFold_cons_zero fp hfp rects [] 0]
  simp only [addBackground]
  split_ifs with hpix
  · constructor
    · simp only
      rw [addPaint_cons_zero _ _ _ _ hfp]
    · rfl
  · exact ⟨rfl, rfl⟩

theorem bucketFold_keys_nonzero (fp : ℚ) (hfp : fp ≠ 0) : ∀ (rects : List TimedRect)
    (init : List (ℚ × ℚ) × ℚ), (∀ k ∈ init.1.map Prod.fst, k ≠ 0) →
    ∀ k ∈ (rects.foldl (bucketStep fp) init).1.map Prod.fst, k ≠ 0
  | [], _, h => by simpa using h
  | r :: rest, init, h => by
    rw [List.foldl_cons]
    apply bucketFold_keys_nonzero fp hfp rest
    intro k hk
    have hmem : k ∈ init.1.map Prod.fst ∨ k = effectiveTime fp r := by
      rcases addPaint_keys init.1 (effectiveTime fp r) r.area with hk' | hk' <;>
        simp only [bucketStep] at hk <;> rw [hk'] at hk
      · exact Or.inl hk
      · rcases List.mem_append.mp hk with h' | h'
        · exact Or.inl h'
        · exact Or.inr (List.mem_singleton.mp h')
    rcases hmem with h' | h'
    · exact h k h'
    · rw [h']
      exact effectiveTime_ne_zero fp hfp r

theorem visualPaintsNoInit_keys_nonzero (rects : List TimedRect) (fp cw iw ch ihh : ℚ)
    (hfp : fp ≠ 0) :
    ∀ k ∈ (visualPaintsNoInit rects fp cw iw ch ihh).1.map Prod.fst, k ≠ 0 := by
  have hb := bucketFold_keys_nonzero fp hfp rects ([], 0) (by simp)
  unfold visualPaintsNoInit bucketRectsNoInit
  simp only [addBackground]
  split_ifs with hpix
  · intro k hk
    have hmem : k ∈ (List.foldl (bucketStep fp) ([], 0) rects).1.map Prod.fst ∨ k = fp := by
      rcases addPaint_keys (List.foldl (bucketStep fp) ([], 0) rects).1 fp
          (max (max cw iw * max ch ihh - (List.foldl (bucketStep fp) ([], 0) rects).2) 0 *
            pageBackgroundWeight) with hk' | hk' <;> rw [hk'] at hk
      · exact Or.inl hk
      · rcases List.mem_append.mp hk with h' | h'
        · exact Or.inl h'
        · exact Or.inr (List.mem_singleton.mp h')
    rcases hmem with h' | h'
    · exact hb k h'
    · rw [h']
      exact hfp
  · exact hb

theorem cumulProgress_ne_nil (total : ℚ) (l : List (ℚ × ℚ)) (acc : ℚ) (h : l ≠ []) :
    cumulProgress total l acc ≠ [] := by
  intro hc
  apply h
  have hmap := congrArg (List.map ProgressPoint.tm) hc
  rw [cumulProgress_map_tm] at hmap
  simp only [List.map_nil] at hmap
  exact List.map_eq_nil.mp hmap

theorem foldl_siStep_cumul (total : ℚ) : ∀ (l : List (ℚ × ℚ)) (acc : ℚ) (st : ℚ × ℚ × ℚ),
    l ≠ [] →
    ∃ last si, last ∈ l ∧
      (cumulProgress total l acc).foldl siStep st =
        (last.1, (acc + (l.map Prod.snd).sum) / total, si)
  | [], _, _, h => absurd rfl h
  | [p], acc, st, _ => by
    refine ⟨p, (siStep st ⟨p.1, p.2, (acc + p.2) / total⟩).2.2,
      List.mem_cons_self _ _, ?_⟩
    simp only [cumulProgress, List.foldl_cons, List.foldl_nil, List.map_cons, List.map_nil,
      List.sum_cons, List.sum_nil, add_zero]
    rfl
  | p :: q :: rest, acc, st, _ => by
    obtain ⟨last, si, hmem, h2⟩ := foldl_siStep_cumul total (q :: rest) (acc + p.2)
      (siStep st ⟨p.1, p.2, (acc + p.2) / total⟩) (by simp)
    refine ⟨last, si, List.mem_cons_of_mem _ hmem, ?_⟩
    have hsum : acc + p.2 + ((q :: rest).map Prod.snd).sum =
        acc + ((p :: q :: rest).map Prod.snd).sum := by
      simp only [List.map_cons, List.sum_cons]
      ring
    rw [← hsum]
    simp only [cumulProgress, List.foldl_cons]
    simpa only [cumulProgress, List.foldl_cons] using h2

theorem si_insert_zero (bc : List ProgressPoint) (t q si : ℚ) (ht : t ≤ 0)
    (hb : ∀ p ∈ bc, 0 < p.tm) (hq : bc = [] → q = 1) :
    (bc.foldl siStep (siStep (t, q, si) ⟨0, 0, q⟩)).2.2 =
      (bc.foldl siStep (t, q, si)).2.2 := by
  cases bc with
  | nil =>
    have hq1 := hq rfl
    simp [siStep, hq1]
  | cons p rest =>
    have hp : 0 < p.tm := hb p (List.mem_cons_self _ _)
    rcases le_or_lt 1 q with hq1 | hq1
    · have e1 : siStep (t, q, si) ⟨0, 0, q⟩ = (0, q, si) := by
        simp [siStep, not_lt.mpr hq1]
      have e2 : siStep (0, q, si) p = siStep (t, q, si) p := by
        simp [siStep, not_lt.mpr hq1]
      rw [List.foldl_cons, List.foldl_cons, e1, e2]
    · rcases lt_or_eq_of_le ht with ht0 | ht0
      · have e1 : siStep (t, q, si) ⟨0, 0, q⟩ = (0, q, si + (1 - q) * (0 - t)) := by
          simp only [siStep]
          rw [if_pos ⟨by linarith, hq1⟩]
        have e2 : siStep (0, q, si + (1 - q) * (0 - t)) p = siStep (t, q, si) p := by
          simp only [siStep]
          rw [if_pos ⟨by linarith, hq1⟩, if_pos ⟨by linarith, hq1⟩]
          simp only [Prod.mk.injEq, true_and]
          ring
        rw [List.foldl_cons, List.foldl_cons, e1, e2]
      · have e1 : siStep (t, q, si) ⟨0, 0, q⟩ = (0, q, si) := by
          rw [← ht0]
          simp [siStep, ht0]
        rw [List.foldl_cons, List.foldl_cons, e1, ht0]

theorem dropWhile_head_false {α : Type} (p : α → Bool) : ∀ (l : List α) (b : α)
    (bs : List α), l.dropWhile p = b :: bs → p b = false
  | [], _, _, h => by simp [List.dropWhile] at h
  | a :: rest, b, bs, h => by
    rw [List.dropWhile_cons] at h
    split_ifs at h with ha
    · exact dropWhile_head_false p rest b bs h
    · cases h
      exact Bool.not_eq_true _ ▸ ha

theorem dropWhile_pos_of_sorted (SL : List (ℚ × ℚ)) (p : ℚ × ℚ → Bool)
    (hsorted : List.Pairwise (fun a b : ℚ × ℚ => a.1 ≤ b.1) SL)
    (hkeys : ∀ x ∈ SL, x.1 ≠ 0)
    (hfail : ∀ x, p x = false → 0 ≤ x.1) :
    ∀ x ∈ SL.dropWhile p, 0 < x.1 := by
  intro x hx
  rcases hBe : SL.dropWhile p with _ | ⟨b, bs⟩
  · rw [hBe] at hx
    cases hx
  · rw [hBe] at hx
    have hpb : p b = false := dropWhile_head_false p SL b bs hBe
    have hb0 : 0 ≤ b.1 := hfail b hpb
    have hbSL : b ∈ SL := (List.dropWhile_sublist p).subset (hBe ▸ List.mem_cons_self b bs)
    have hbpos : 0 < b.1 := lt_of_le_of_ne hb0 (Ne.symm (hkeys b hbSL))
    rcases List.mem_cons.mp hx with rfl | hx'
    · exact hbpos
    · have hsub : (b :: bs).Sublist SL := hBe ▸ List.dropWhile_sublist p
      have hsortB := hsorted.sublist hsub
      have := List.rel_of_sorted_cons hsortB x hx'
      linarith

/-- Inserting the zero-area point at time `0` between the negative-time and
positive-time parts of a sorted bucket list leaves the integrated SpeedIndex
unchanged. -/
theorem si_cumul_zero_mid (A B : List (ℚ × ℚ)) (T : ℚ) (hT : T ≠ 0)
    (hsum : ((A ++ B).map Prod.snd).sum = T)
    (hAneg : ∀ x ∈ A, x.1 < 0) (hBpos : ∀ x ∈ B, 0 < x.1) :
    ((cumulProgress T (A ++ (0, 0) :: B) 0).foldl siStep (0, 0, 0)).2.2 =
      ((cumulProgress T (A ++ B) 0).foldl siStep (0, 0, 0)).2.2 := by
  have hsum' : (A.map Prod.snd).sum + (B.map Prod.snd).sum = T := by
    rw [← hsum]
    simp
  have hbtm : ∀ acc : ℚ, ∀ p ∈ cumulProgress T B acc, 0 < p.tm := by
    intro acc p hp
    have hmem := List.mem_map_of_mem ProgressPoint.tm hp
    rw [cumulProgress_map_tm] at hmem
    rcases List.mem_map.mp hmem with ⟨x, hx, hxe⟩
    rw [← hxe]
    exact hBpos x hx
  have hBne : ∀ acc : ℚ, cumulProgress T B acc = [] → B = [] := by
    intro acc hc
    by_contra hbe
    exact cumulProgress_ne_nil T B acc hbe hc
  rw [cumulProgress_append T A ((0, 0) :: B) 0, cumulProgress_append T A B 0,
    List.foldl_append, List.foldl_append]
  simp only [cumulProgress, zero_add, add_zero]
  rcases eq_or_ne A [] with hAe | hAe
  · subst hAe
    simp only [cumulProgress, List.foldl_nil, List.map_nil, List.sum_nil]
    rw [List.foldl_cons, zero_div]
    refine si_insert_zero (cumulProgress T B 0) 0 0 0 le_rfl (hbtm 0) ?_
    intro hc
    exfalso
    have hB := hBne 0 hc
    rw [hB] at hsum'
    simp at hsum'
    exact hT hsum'.symm
  · obtain ⟨last, si, hmem, hfold⟩ := foldl_siStep_cumul T A 0 (0, 0, 0) hAe
    simp only [zero_add] at hfold
    rw [hfold, List.foldl_cons]
    refine si_insert_zero (cumulProgress T B (A.map Prod.snd).sum) last.1
      ((A.map Prod.snd).sum / T) si (le_of_lt (hAneg last hmem)) (hbtm _) ?_
    intro hc
    have hB := hBne _ hc
    rw [hB] at hsum'
    simp at hsum'
    rw [hsum', div_self hT]

/-! ## Claim C10 -/

/-- C10: whenever the bucketed total is positive, the progress curve contains
a point at time `0` coming from the initial `{'0': 0}` bucket; and when no
region's effective paint time and no background bucket falls at time `0`
(equivalently, `firstPaint ≠ 0`, since every bucket time is either
`firstPaint` or a truthy resource time) that point carries zero area and
removing the synthetic bucket — computing the curve with an initially empty
bucket map instead — leaves the computed SpeedIndex unchanged. -/
theorem C10_zero_bucket_refinement (rects : List TimedRect) (fp cw iw ch ihh : ℚ)
    (htot : 0 < (visualPaints rects fp cw iw ch ihh).2) :
    (∃ p ∈ CalculateVisualProgress rects fp cw iw ch ihh, p.tm = 0) ∧
    (fp ≠ 0 →
      (∃ p ∈ CalculateVisualProgress rects fp cw iw ch ihh, p.tm = 0 ∧ p.area = 0) ∧
      CalculateSpeedIndex (CalculateVisualProgress rects fp cw iw ch ihh) fp =
        CalculateSpeedIndex (CalculateVisualProgressNoInit rects fp cw iw ch ihh) fp) := by
  have htne : (visualPaints rects fp cw iw ch ihh).2 ≠ 0 := ne_of_gt htot
  have hcurve : CalculateVisualProgress rects fp cw iw ch ihh =
      cumulProgress (visualPaints rects fp cw iw ch ihh).2
        (List.insertionSort (fun a b : ℚ × ℚ => a.1 ≤ b.1)
          (visualPaints rects fp cw iw ch ihh).1) 0 := by
    simp only [CalculateVisualProgress]
    rw [if_pos htne]
  constructor
  · rw [hcurve]
    have h0 : (0 : ℚ) ∈ (cumulProgress (visualPaints rects fp cw iw ch ihh).2
        (List.insertionSort (fun a b : ℚ × ℚ => a.1 ≤ b.1)
          (visualPaints rects fp cw iw ch ihh).1) 0).map ProgressPoint.tm := by
      rw [cumulProgress_map_tm]
      exact ((List.perm_insertionSort _ _).map Prod.fst).mem_iff.mpr
        (visualPaints_zero_key rects fp cw iw ch ihh)
    rcases List.mem_map.mp h0 with ⟨p, hp, hptm⟩
    exact ⟨p, hp, hptm⟩
  · intro hfp
    obtain ⟨hcons, hteq⟩ := visualPaints_cons_zero rects fp cw iw ch ihh hfp
    have hkeys := visualPaintsNoInit_keys_nonzero rects fp cw iw ch ihh hfp
    have hLsum : ((visualPaintsNoInit rects fp cw iw ch ihh).1.map Prod.snd).sum =
        (visualPaints rects fp cw iw ch ihh).2 := by
      rw [visualPaintsNoInit_sum, ← hteq]
    set T := (visualPaints rects fp cw iw ch ihh).2 with hTdef
    set L := (visualPaintsNoInit rects fp cw iw ch ihh).1 with hLdef
    have hSLperm := List.perm_insertionSort (fun a b : ℚ × ℚ => a.1 ≤ b.1) L
    have hSLsorted := List.sorted_insertionSort (fun a b : ℚ × ℚ => a.1 ≤ b.1) L
    have hSLkeys : ∀ x ∈ List.insertionSort (fun a b : ℚ × ℚ => a.1 ≤ b.1) L,
        x.1 ≠ 0 := by
      intro x hx
      exact hkeys x.1 (List.mem_map_of_mem Prod.fst (hSLperm.mem_iff.mp hx))
    obtain ⟨A, B, hdec, hsplit, hApred, hBpos⟩ :
        ∃ A B, List.insertionSort (fun a b : ℚ × ℚ => a.1 ≤ b.1) ((0, 0) :: L) =
            A ++ (0, 0) :: B ∧
          List.insertionSort (fun a b : ℚ × ℚ => a.1 ≤ b.1) L = A ++ B ∧
          (∀ x ∈ A, x.1 < 0) ∧ (∀ x ∈ B, 0 < x.1) := by
      refine ⟨_, _, List.insertionSort_cons_eq_take_drop _ _ _,
        (List.takeWhile_append_dropWhile _ _).symm, ?_, ?_⟩
      · intro x hx
        have h2 := List.mem_takeWhile_imp hx
        simp only [decide_eq_true_eq] at h2
        exact not_le.mp h2
      · refine dropWhile_pos_of_sorted _ _ hSLsorted hSLkeys ?_
        intro x hxf
        simp only [decide_eq_false_iff_not] at hxf
        exact not_not.mp hxf
    have hcurve2 : CalculateVisualProgress rects fp cw iw ch ihh =
        cumulProgress T (A ++ (0, 0) :: B) 0 := by
      rw [hcurve, hcons, hdec]
    have hNne : (visualPaintsNoInit rects fp cw iw ch ihh).2 ≠ 0 := by
      rw [← hteq]
      exact htne
    have hnoc : CalculateVisualProgressNoInit rects fp cw iw ch ihh =
        cumulProgress T (A ++ B) 0 := by
      simp only [CalculateVisualProgressNoInit]
      rw [if_pos hNne, ← hteq, ← hLdef, hsplit]
    have hsumAB : ((A ++ B).map Prod.snd).sum = T := by
      rw [← hsplit, (hSLperm.map Prod.snd).sum_eq]
      exact hLsum
    constructor
    · rw [hcurve2, cumulProgress_append]
      simp only [cumulProgress]
      exact ⟨_, List.mem_append_right _ (List.mem_cons_self _ _), rfl, rfl⟩
    · have hCne : cumulProgress T (A ++ (0, 0) :: B) 0 ≠ [] :=
        cumulProgress_ne_nil _ _ _ (by simp)
      have hABne : A ++ B ≠ [] := by
        intro hAB
        rw [hAB] at hsumAB
        simp at hsumAB
        exact htne hsumAB.symm
      have hNCne : cumulProgress T (A ++ B) 0 ≠ [] := cumulProgress_ne_nil _ _ _ hABne
      rw [hcurve2, hnoc]
      unfold CalculateSpeedIndex
      rw [if_pos hCne, if_pos hNCne]
      exact si_cumul_zero_mid A B T htne hsumAB hApred hBpos

/-- Witness for C10 at the two-bucket example: total `100 > 0`,
`firstPaint = 100 ≠ 0`. -/
theorem C10_zero_bucket_refinement_witness :
    (∃ p ∈ CalculateVisualProgress [⟨"a", 50, 100⟩, ⟨"b", 50, 300⟩] 100 10 10 10 10,
      p.tm = 0) ∧
    ((100 : ℚ) ≠ 0 →
      (∃ p ∈ CalculateVisualProgress [⟨"a", 50, 100⟩, ⟨"b", 50, 300⟩] 100 10 10 10 10,
        p.tm = 0 ∧ p.area = 0) ∧
      CalculateSpeedIndex
          (CalculateVisualProgress [⟨"a", 50, 100⟩, ⟨"b", 50, 300⟩] 100 10 10 10 10) 100 =
        CalculateSpeedIndex
          (CalculateVisualProgressNoInit [⟨"a", 50, 100⟩, ⟨"b", 50, 300⟩] 100 10 10 10 10)
          100) :=
  C10_zero_bucket_refinement [⟨"a", 50, 100⟩, ⟨"b", 50, 300⟩] 100 10 10 10 10
    (by norm_num [visualPaints, bucketRects, bucketStep, addBackground, effectiveTime,
      addPaint, pageBackgroundWeight])
